import Mathlib

/-! Shallow embedding of the statistical aggregation pipeline of
`program_script.py` (rental listings vs Airbnb listings).  Tables are
modelled as lists of rows, numeric columns as rationals, keys as strings. -/

/-- Order of unique bedroom categories (`BEDROOMS_ORDER` in the source). -/
def BEDROOMS_ORDER : List String :=
  ["1", "2", "3", "4", "5", "6", "7", "8 or more", "total"]

/-- Replacement value for NA or confidential values (`NA_REPLACEMENT`). -/
def NA_REPLACEMENT : ℚ := 0

/-- Nights in a week, for converting nightly rates to weekly (`NIGHTS_IN_WEEK`). -/
def NIGHTS_IN_WEEK : ℚ := 7

/-- A row of a keyed table: area code, bedroom category, one value column. -/
abbrev Row (α : Type) : Type := String × String × α

/-- The (area, bedroom-category) key of a row. -/
def rkey {α : Type} (r : Row α) : String × String := (r.1, r.2.1)

/-- Structural lexicographic comparison of character lists, the string order
underlying `sort_values` (ascending, character by character). -/
def lex_lt : List Char → List Char → Prop
  | [], [] => False
  | [], _ :: _ => True
  | _ :: _, [] => False
  | a :: as, b :: bs => a < b ∨ (a = b ∧ lex_lt as bs)

/-- Decision procedure for `lex_lt`, structurally recursive so that closed
comparisons evaluate. -/
def lex_lt_dec : (l₁ l₂ : List Char) → Decidable (lex_lt l₁ l₂)
  | [], [] => isFalse fun h => h
  | [], _ :: _ => isTrue trivial
  | _ :: _, [] => isFalse fun h => h
  | a :: as, b :: bs =>
    haveI := lex_lt_dec as bs
    inferInstanceAs (Decidable (a < b ∨ (a = b ∧ lex_lt as bs)))

instance : DecidableRel lex_lt := lex_lt_dec

lemma lex_lt_irrefl : ∀ as : List Char, ¬ lex_lt as as := by
  intro as
  induction as with
  | nil => exact fun h => h
  | cons a as ih =>
    rintro (h | ⟨-, h⟩)
    · exact lt_irrefl a h
    · exact ih h

lemma lex_lt_trans : ∀ {as bs cs : List Char},
    lex_lt as bs → lex_lt bs cs → lex_lt as cs := by
  intro as
  induction as with
  | nil =>
    intro bs cs h1 h2
    cases cs with
    | nil =>
      cases bs with
      | nil => exact h1
      | cons b bs => exact (h2 : False).elim
    | cons c cs => exact trivial
  | cons a as ih =>
    intro bs cs h1 h2
    cases bs with
    | nil => exact (h1 : False).elim
    | cons b bs =>
      cases cs with
      | nil => exact (h2 : False).elim
      | cons c cs =>
        rcases h1 with hab | ⟨e1, t1⟩ <;> rcases h2 with hbc | ⟨e2, t2⟩
        · exact Or.inl (lt_trans hab hbc)
        · exact Or.inl (e2 ▸ hab)
        · exact Or.inl (e1 ▸ hbc)
        · exact Or.inr ⟨e1.trans e2, ih t1 t2⟩

lemma lex_lt_asymm : ∀ {as bs : List Char}, lex_lt as bs → ¬ lex_lt bs as := by
  intro as
  induction as with
  | nil =>
    intro bs h1 h2
    cases bs with
    | nil => exact h1
    | cons b bs => exact (h2 : False)
  | cons a as ih =>
    intro bs h1 h2
    cases bs with
    | nil => exact (h1 : False)
    | cons b bs =>
      rcases h1 with h1 | ⟨e1, t1⟩ <;> rcases h2 with h2 | ⟨e2, t2⟩
      · exact lt_asymm h1 h2
      · exact absurd (e2 ▸ h1) (lt_irrefl a)
      · exact absurd (e1 ▸ h2) (lt_irrefl b)
      · exact ih t1 t2

lemma lex_lt_trichotomy : ∀ as bs : List Char,
    lex_lt as bs ∨ as = bs ∨ lex_lt bs as := by
  intro as
  induction as with
  | nil =>
    intro bs
    cases bs with
    | nil => exact Or.inr (Or.inl rfl)
    | cons b bs => exact Or.inl trivial
  | cons a as ih =>
    intro bs
    cases bs with
    | nil => exact Or.inr (Or.inr trivial)
    | cons b bs =>
      rcases lt_trichotomy a b with h | h | h
      · exact Or.inl (Or.inl h)
      · rcases ih bs with h2 | h2 | h2
        · exact Or.inl (Or.inr ⟨h, h2⟩)
        · exact Or.inr (Or.inl (by rw [h, h2]))
        · exact Or.inr (Or.inr (Or.inr ⟨h.symm, h2⟩))
      · exact Or.inr (Or.inr (Or.inl h))

/-- Strict lexicographic string comparison (`a` sorts strictly before `b`). -/
def str_lt (a b : String) : Prop := lex_lt a.data b.data

/-- Non-strict lexicographic string comparison. -/
def str_le (a b : String) : Prop := str_lt a b ∨ a = b

instance : DecidableRel str_lt := fun a b => lex_lt_dec a.data b.data

instance : DecidableRel str_le := fun a b =>
  decidable_of_iff (str_lt a b ∨ a = b) Iff.rfl

lemma str_lt_trans {a b c : String} (h1 : str_lt a b) (h2 : str_lt b c) :
    str_lt a c := lex_lt_trans h1 h2

lemma str_lt_asymm {a b : String} (h : str_lt a b) : ¬ str_lt b a :=
  lex_lt_asymm h

lemma str_lt_irrefl (a : String) : ¬ str_lt a a := lex_lt_irrefl a.data

lemma str_lt_ne {a b : String} (h : str_lt a b) : a ≠ b := by
  rintro rfl
  exact str_lt_irrefl a h

lemma str_trichotomy (a b : String) : str_lt a b ∨ a = b ∨ str_lt b a := by
  rcases lex_lt_trichotomy a.data b.data with h | h | h
  · exact Or.inl h
  · refine Or.inr (Or.inl ?_)
    cases a
    cases b
    simp only at h
    rw [h]
  · exact Or.inr (Or.inr h)

lemma str_le_total (a b : String) : str_le a b ∨ str_le b a := by
  rcases str_trichotomy a b with h | h | h
  · exact Or.inl (Or.inl h)
  · exact Or.inl (Or.inr h)
  · exact Or.inr (Or.inl h)

lemma str_le_trans {a b c : String} (h1 : str_le a b) (h2 : str_le b c) :
    str_le a c := by
  rcases h1 with h1 | rfl
  · rcases h2 with h2 | rfl
    · exact Or.inl (str_lt_trans h1 h2)
    · exact Or.inl h1
  · exact h2

lemma str_le_antisymm {a b : String} (h1 : str_le a b) (h2 : str_le b a) :
    a = b := by
  rcases h1 with h1 | rfl
  · rcases h2 with h2 | rfl
    · exact absurd h2 (str_lt_asymm h1)
    · rfl
  · rfl

/-- Strict lexicographic order on keys, the order produced by
`sort_values(by = ["SA22018__1", "bedrooms"])`. -/
def pair_lt (k l : String × String) : Prop :=
  str_lt k.1 l.1 ∨ (k.1 = l.1 ∧ str_lt k.2 l.2)

/-- Lexicographic order on keys (non-strict). -/
def pair_le (k l : String × String) : Prop :=
  str_lt k.1 l.1 ∨ (k.1 = l.1 ∧ str_le k.2 l.2)

instance : DecidableRel pair_lt := fun k l =>
  decidable_of_iff (str_lt k.1 l.1 ∨ (k.1 = l.1 ∧ str_lt k.2 l.2)) Iff.rfl

instance : DecidableRel pair_le := fun k l =>
  decidable_of_iff (str_lt k.1 l.1 ∨ (k.1 = l.1 ∧ str_le k.2 l.2)) Iff.rfl

/-- Row comparison by key, lifting `pair_le`. -/
def key_le {α : Type} (r s : Row α) : Prop := pair_le (rkey r) (rkey s)

instance {α : Type} : DecidableRel (@key_le α) := fun r s =>
  decidable_of_iff (pair_le (rkey r) (rkey s)) Iff.rfl

instance : IsTotal (String × String) pair_le :=
  ⟨by
    intro a b
    rcases str_trichotomy a.1 b.1 with h | h | h
    · exact Or.inl (Or.inl h)
    · rcases str_le_total a.2 b.2 with h2 | h2
      · exact Or.inl (Or.inr ⟨h, h2⟩)
      · exact Or.inr (Or.inr ⟨h.symm, h2⟩)
    · exact Or.inr (Or.inl h)⟩

instance : IsTrans (String × String) pair_le :=
  ⟨by
    intro a b c hab hbc
    rcases hab with h1 | ⟨e1, l1⟩ <;> rcases hbc with h2 | ⟨e2, l2⟩
    · exact Or.inl (str_lt_trans h1 h2)
    · exact Or.inl (e2 ▸ h1)
    · exact Or.inl (e1 ▸ h2)
    · exact Or.inr ⟨e1.trans e2, str_le_trans l1 l2⟩⟩

instance : IsAntisymm (String × String) pair_le :=
  ⟨by
    intro a b hab hba
    rcases hab with h1 | ⟨e1, l1⟩
    · rcases hba with h2 | ⟨e2, l2⟩
      · exact absurd h2 (str_lt_asymm h1)
      · exact absurd h1 (by rw [e2]; exact str_lt_irrefl a.1)
    · rcases hba with h2 | ⟨e2, l2⟩
      · exact absurd h2 (by rw [e1]; exact str_lt_irrefl b.1)
      · exact Prod.ext e1 (str_le_antisymm l1 l2)⟩

instance {α : Type} : IsTotal (Row α) key_le :=
  ⟨fun a b => IsTotal.total (r := pair_le) (rkey a) (rkey b)⟩

instance {α : Type} : IsTrans (Row α) key_le :=
  ⟨fun _ _ _ hab hbc => IsTrans.trans (r := pair_le) _ _ _ hab hbc⟩

/-- `sort_values` on the key columns, modelled as a sort by `key_le`. -/
def sort_rows {α : Type} (t : List (Row α)) : List (Row α) :=
  List.insertionSort key_le t

/-- The cross-product `[(sa2, bedroom) for sa2 in unique_sa2s for bedroom in
unique_bedrooms]` (lines 145-147 and 201-203 of the source). -/
def all_combinations : List String → List String → List (String × String)
  | [], _ => []
  | a :: rest, bs => bs.map (fun b => (a, b)) ++ all_combinations rest bs

/-- `pd.merge(left, all_combinations, how = "right").fillna(d)`: every
combination keeps its matching left rows, or gets the default value. -/
def right_merge_fill {α : Type} (left : List (Row α)) :
    List (String × String) → α → List (Row α)
  | [], _ => []
  | k :: ks, d =>
    (if (left.filter fun r => decide (rkey r = k)).isEmpty then [(k.1, k.2, d)]
     else left.filter fun r => decide (rkey r = k)) ++ right_merge_fill left ks d

/-- The completion step shared by `airbnb_count`, `airbnb_price` and
`fill_rental_price`: right-merge over the area × bedroom cross-product,
fill absent keys with the default, then sort by key. -/
def complete_table {α : Type} (left : List (Row α)) (areas bedrooms : List String)
    (d : α) : List (Row α) :=
  sort_rows (right_merge_fill left (all_combinations areas bedrooms) d)

/-- `groupby(["SA22018__1", "bedrooms"]).size()` (lines 136-138): distinct
keys in sorted order with their multiplicities. -/
def group_count (pairs : List (String × String)) : List (Row ℚ) :=
  (List.insertionSort pair_le pairs.dedup).map fun k =>
    (k.1, k.2, (pairs.count k : ℚ))

/-- `groupby("SA22018__1").sum("size")` with `bedrooms = "total"`
(lines 139-141): per-area totals of the grouped counts. -/
def group_total (counts : List (Row ℚ)) : List (Row ℚ) :=
  (List.insertionSort str_le (counts.map fun r => r.1).dedup).map fun a =>
    (a, "total", ((counts.filter fun r => r.1 == a).map fun r => r.2.2).sum)

/-- `airbnb_count` (lines 132-153): group listings by key, append per-area
totals, complete over areas × `BEDROOMS_ORDER`, fill with 0. -/
def airbnb_count (pairs : List (String × String)) (areas : List String) :
    List (Row ℚ) :=
  complete_table (group_count pairs ++ group_total (group_count pairs))
    areas BEDROOMS_ORDER NA_REPLACEMENT

/-- `basic_price_dict` (lines 210-213 of the source, keys verbatim; note the
two spaces in the sixth bucket key). -/
def basic_price_dict : List (String × ℚ) :=
  [("0", 0), ("Under $100", 1), ("$100 - $149", 1.5), ("$150 - $199", 2),
   ("$200 - $299", 3), ("$300 - $399", 4), ("$400 - $499", 5),
   ("$500  - $599", 6), ("$600 and over", 7)]

/-- `average_price_dict` (lines 214-217 of the source, keys verbatim). -/
def average_price_dict : List (String × ℚ) :=
  [("0", 0), ("Under $100", 49.5), ("$100 - $149", 124.5), ("$150 - $199", 174.5),
   ("$200 - $299", 249.5), ("$300 - $399", 349.5), ("$400 - $499", 449.5),
   ("$500  - $599", 549.5), ("$600 and over", 800)]

/-- A completed rental-price row with the two derived numeric columns. -/
structure RentalPriceRow where
  SA2 : String
  bedrooms : String
  price_str : String
  price_basic : ℚ
  price_average : ℚ
deriving DecidableEq

/-- Derivation of the numeric price columns from the bucket label via the two
dictionaries (`Series.replace`).  Restricted to labels present in the
dictionaries: pandas leaves other labels unreplaced as strings, a case the
pipeline never feeds to the numeric columns. -/
def price_row_of (r : Row String) : RentalPriceRow :=
  { SA2 := r.1, bedrooms := r.2.1, price_str := r.2.2,
    price_basic := (basic_price_dict.lookup r.2.2).getD 0,
    price_average := (average_price_dict.lookup r.2.2).getD 0 }

/-- `fill_rental_price` (lines 195-221): completion over the areas and the
bedroom categories observed in the incomplete input
(`incomplete_rental_price["bedrooms"].unique()`), filling with "0", then the
two dictionary replacements. -/
def fill_rental_price (areas : List String) (incomplete : List (Row String)) :
    List RentalPriceRow :=
  (complete_table incomplete areas ((incomplete.map fun r => r.2.1).dedup) "0").map
    price_row_of

/-- Audit of `astype(str).str.replace(".0", "")`: removes each occurrence of
the two-character pattern ".0", scanning left to right. -/
def strip_dot_zero : List Char → List Char
  | [] => []
  | '.' :: '0' :: rest => strip_dot_zero rest
  | c :: rest => c :: strip_dot_zero rest

/-- Bedroom cleaning in `airbnb_import` (lines 98-108): `fillna({"bedrooms": 1})`,
cap values above 7 to "8 or more", then `astype(str)` (an integral float renders
with a trailing ".0") followed by the ".0" removal. -/
def clean_bedrooms (b : Option ℕ) : String :=
  let n := b.getD 1
  if 7 < n then "8 or more"
  else String.mk (strip_dot_zero (toString n ++ ".0").toList)

/-- `str.replace(",", "").str.replace("$", "")` on the price column
(literal single-character replacements, lines 101-102). -/
def strip_price (s : String) : String :=
  String.mk ((s.toList.filter fun c => c != ',').filter fun c => c != '$')

/-- Split a character list at each dot, as in decimal-literal parsing. -/
def split_on_dot : List Char → List (List Char)
  | [] => [[]]
  | c :: rest =>
    if c = '.' then [] :: split_on_dot rest
    else
      match split_on_dot rest with
      | [] => [[c]]
      | g :: gs => (c :: g) :: gs

/-- Parse a non-empty run of decimal digits. -/
def parse_digits (cs : List Char) : Option ℕ :=
  if cs.isEmpty then none
  else if cs.all fun c => c.isDigit then
    some (cs.foldl (fun n c => 10 * n + (c.toNat - 48)) 0)
  else none

/-- `astype(float)` on a plain decimal string (the shape produced by the
stripping step on well-formed price data). -/
def parse_decimal (s : String) : Option ℚ :=
  match split_on_dot s.toList with
  | [w] => (parse_digits w).map fun n => (n : ℚ)
  | [w, f] =>
    match parse_digits w, parse_digits f with
    | some wn, some fn => some ((wn : ℚ) + (fn : ℚ) / (10 : ℚ) ^ f.length)
    | _, _ => none
  | _ => none

/-- Price conversion in `airbnb_import` (lines 101-103): strip separators and
currency symbol, parse, `multiply(NIGHTS_IN_WEEK)`. -/
def weekly_price (s : String) : Option ℚ :=
  (parse_decimal (strip_price s)).map fun x => x * NIGHTS_IN_WEEK

/-- The signed zero-safe comparison policy of `add_ratios` (lines 268-284;
the count block, which the price block repeats verbatim with its own
column names). -/
def ratio_policy (a b : ℚ) : ℚ :=
  if a = b then 0
  else if b < a then
    if b = 0 then a * (-1 / (b + 1)) else a * (-1 / b)
  else
    if a = 0 then b * (1 / (a + 1)) else b * (1 / a)

/-- One row of the aggregate table built by `df_aggregate` (lines 247-262),
with the public column names. -/
structure AggRow where
  SA2 : String
  Bedrooms : String
  rental_count : ℚ
  Airbnb_count : ℚ
  rental_price : String
  rental_price_basic : ℚ
  rental_price_average : ℚ
  Airbnb_price : ℚ
deriving DecidableEq

/-- `df_aggregate` (lines 247-262): positional column joins of the four
completed tables (all four are keyed and ordered identically in the
pipeline), with the renaming to public column names. -/
def df_aggregate (rc ac : List (Row ℚ)) (rp : List RentalPriceRow)
    (ap : List (Row ℚ)) : List AggRow :=
  (rc.zip (ac.zip (rp.zip ap))).map fun x =>
    { SA2 := x.1.1, Bedrooms := x.1.2.1, rental_count := x.1.2.2,
      Airbnb_count := x.2.1.2.2,
      rental_price := x.2.2.1.price_str,
      rental_price_basic := x.2.2.1.price_basic,
      rental_price_average := x.2.2.1.price_average,
      Airbnb_price := x.2.2.2.2.2 }

/-- The state of the aggregate table object passed to `add_ratios` before the
call: no `count_ratio` or `price_ratio` column (modelled as `none`). -/
def table_pre (t : List AggRow) : List (AggRow × Option ℚ × Option ℚ) :=
  t.map fun row => (row, none, none)

/-- The state of the aggregate table object passed to `add_ratios` after the
call (lines 268-302): the row-wise `.loc` writes assign both ratio columns;
both inline piecewise blocks are transcribed verbatim. -/
def add_ratios_post (t : List AggRow) : List (AggRow × Option ℚ × Option ℚ) :=
  t.map fun row =>
    let cr : ℚ :=
      if row.Airbnb_count = row.rental_count then 0
      else if row.rental_count < row.Airbnb_count then
        if row.rental_count = 0 then row.Airbnb_count * (-1 / (row.rental_count + 1))
        else row.Airbnb_count * (-1 / row.rental_count)
      else
        if row.Airbnb_count = 0 then row.rental_count * (1 / (row.Airbnb_count + 1))
        else row.rental_count * (1 / row.Airbnb_count)
    let pr : ℚ :=
      if row.Airbnb_price = row.rental_price_average then 0
      else if row.rental_price_average < row.Airbnb_price then
        if row.rental_price_average = 0 then
          row.Airbnb_price * (-1 / (row.rental_price_average + 1))
        else row.Airbnb_price * (-1 / row.rental_price_average)
      else
        if row.Airbnb_price = 0 then
          row.rental_price_average * (1 / (row.Airbnb_price + 1))
        else row.rental_price_average * (1 / row.Airbnb_price)
    (row, some cr, some pr)

/-- The cumulative-sum walk of `assign_rental_price` (lines 170-174):
`while cumulative_sum < median_position: cumulative_sum += row[i]; i += 1`.
`none` models the walk running off the end of the row (an index error in
the source); otherwise the final `(i, cumulative_sum)` is returned. -/
def bucket_walk (target : ℚ) : List ℚ → ℕ → ℚ → Option (ℕ × ℚ)
  | [], i, cum => if target ≤ cum then some (i, cum) else none
  | c :: rest, i, cum =>
    if target ≤ cum then some (i, cum)
    else bucket_walk target rest (i + 1) (cum + c)

/-- One row of `assign_rental_price` (lines 167-189): walk to the weighted
median; if the final cumulative sum is nonzero emit bucket index `i - 1`,
otherwise emit nothing (`some none`).  `none` is the index-error case. -/
def assign_rental_price_row (counts : List ℚ) : Option (Option ℕ) :=
  match bucket_walk (counts.sum * (1 / 2)) counts 0 0 with
  | none => none
  | some (i, cum) => if cum = 0 then some none else some (some (i - 1))

/-- A concrete aggregate row used to instantiate frame and policy facts. -/
def demo_agg_row : AggRow :=
  { SA2 := "A", Bedrooms := "1", rental_count := 0, Airbnb_count := 5,
    rental_price := "0", rental_price_basic := 0, rental_price_average := 0,
    Airbnb_price := 0 }

/-- End-to-end scenario data: three entire-home listings in area A with one
bedroom, none in area B. -/
def scenario_listing_pairs : List (String × String) :=
  [("A", "1"), ("A", "1"), ("A", "1")]

/-- Listing counts of the scenario, completed over areas {A, B} and the
categories {"1", "total"}, with the synthetic per-area totals. -/
def scenario_airbnb_count : List (Row ℚ) :=
  complete_table
    (group_count scenario_listing_pairs ++ group_total (group_count scenario_listing_pairs))
    ["A", "B"] ["1", "total"] NA_REPLACEMENT

/-- Rental counts of the scenario (A has 5 in category "1", B none),
completed over the same domain. -/
def scenario_rental_count : List (Row ℚ) :=
  complete_table [("A", "1", (5 : ℚ))] ["A", "B"] ["1", "total"] NA_REPLACEMENT

/-- Rental price table of the scenario: no price observations, all keys
filled with the no-data label. -/
def scenario_rental_price : List RentalPriceRow :=
  (complete_table ([] : List (Row String)) ["A", "B"] ["1", "total"] "0").map
    price_row_of

/-- Listing price table of the scenario: no observations, filled with 0. -/
def scenario_airbnb_price : List (Row ℚ) :=
  complete_table ([] : List (Row ℚ)) ["A", "B"] ["1", "total"] NA_REPLACEMENT

/-- The scenario aggregate table. -/
def scenario_aggregate : List AggRow :=
  df_aggregate scenario_rental_count scenario_airbnb_count scenario_rental_price
    scenario_airbnb_price

/-- The scenario aggregate table after the ratio step. -/
def scenario_final : List (AggRow × Option ℚ × Option ℚ) :=
  add_ratios_post scenario_aggregate

/-! Helper lemmas. -/

lemma pair_le_of_pair_lt {k l : String × String} (h : pair_lt k l) : pair_le k l := by
  rcases h with h | ⟨e, h⟩
  · exact Or.inl h
  · exact Or.inr ⟨e, Or.inl h⟩

lemma pair_lt_ne {k l : String × String} (h : pair_lt k l) : k ≠ l := by
  rintro rfl
  rcases h with h | ⟨_, h⟩ <;> exact str_lt_irrefl _ h

/-! Ratio calculator: claims C1 and C5. -/

/-- Claim C1: every row of the table produced by the ratio step carries a
count ratio and a price ratio computed by the exact piecewise policy
(`ratio_policy`), and the policy satisfies ratio(0,0) = 0, ratio(5,0) = -5
and ratio(0,5) = 5. -/
theorem add_ratios_follows_policy :
    (∀ (t : List AggRow) (row : AggRow) (cr pr : Option ℚ),
        (row, cr, pr) ∈ add_ratios_post t →
        cr = some (ratio_policy row.Airbnb_count row.rental_count) ∧
        pr = some (ratio_policy row.Airbnb_price row.rental_price_average)) ∧
    ratio_policy 0 0 = 0 ∧ ratio_policy 5 0 = -5 ∧ ratio_policy 0 5 = 5 := by
  refine ⟨?_, by norm_num [ratio_policy], by norm_num [ratio_policy],
    by norm_num [ratio_policy]⟩
  intro t row cr pr h
  simp only [add_ratios_post, List.mem_map] at h
  obtain ⟨x, _, heq⟩ := h
  cases heq
  exact ⟨rfl, rfl⟩

/-- Witness for C1: the ratio step on a concrete one-row table where the
listing count is 5 and the rental count is 0 assigns count ratio -5. -/
theorem add_ratios_follows_policy_witness :
    (demo_agg_row, some (-5 : ℚ), some (0 : ℚ)) ∈ add_ratios_post [demo_agg_row] ∧
    (some (-5 : ℚ) = some (ratio_policy demo_agg_row.Airbnb_count demo_agg_row.rental_count) ∧
     some (0 : ℚ) = some (ratio_policy demo_agg_row.Airbnb_price demo_agg_row.rental_price_average)) :=
  have hlist : add_ratios_post [demo_agg_row]
      = [(demo_agg_row, some (-5 : ℚ), some (0 : ℚ))] := by
    norm_num [add_ratios_post, demo_agg_row]
  have hmem : (demo_agg_row, some (-5 : ℚ), some (0 : ℚ)) ∈ add_ratios_post [demo_agg_row] := by
    rw [hlist]; exact List.mem_singleton.mpr rfl
  ⟨hmem, add_ratios_follows_policy.1 [demo_agg_row] demo_agg_row _ _ hmem⟩

/-- Claim C5: for nonzero, distinct arguments the ratio policy is exactly
antisymmetric: ratio(a,b) = -ratio(b,a). -/
theorem ratio_policy_antisymm (a b : ℚ) (ha : a ≠ 0) (hb : b ≠ 0)
    (hab : a ≠ b) : ratio_policy a b = -ratio_policy b a := by
  unfold ratio_policy
  rcases lt_trichotomy a b with h | h | h
  · rw [if_neg hab, if_neg (lt_asymm h), if_neg ha, if_neg (Ne.symm hab),
      if_pos h, if_neg ha]
    ring
  · exact absurd h hab
  · rw [if_neg hab, if_pos h, if_neg hb, if_neg (Ne.symm hab),
      if_neg (lt_asymm h), if_neg hb]
    ring

/-- Witness for C5 at (a, b) = (2, 3). -/
theorem ratio_policy_antisymm_witness :
    (2 : ℚ) ≠ 0 ∧ (3 : ℚ) ≠ 0 ∧ (2 : ℚ) ≠ 3 ∧
    ratio_policy 2 3 = -ratio_policy 3 2 :=
  ⟨by norm_num, by norm_num, by norm_num,
   ratio_policy_antisymm 2 3 (by norm_num) (by norm_num) (by norm_num)⟩

/-! Lookup tables: claim C6. -/

/-- Counterexample to claim C6 as stated: the source dictionaries contain no
entry for the single-spaced label "$500 - $599" (the stored key has two
spaces), so the claimed mappings to 6 and 549.5 do not exist. -/
theorem price_dicts_single_space_missing :
    basic_price_dict.lookup "$500 - $599" ≠ some 6 ∧
    average_price_dict.lookup "$500 - $599" ≠ some 549.5 := by
  constructor <;> decide

/-- Claim C6 (amended): the two fixed lookup tables map exactly as listed,
with the sixth bucket keyed "$500  - $599" (two spaces) as in the source:
ordinal scores 0, 1, 1.5, 2, 3, 4, 5, 6, 7 and average prices 0, 49.5,
124.5, 174.5, 249.5, 349.5, 449.5, 549.5 and the capped 800. -/
theorem price_dicts_entries :
    basic_price_dict.lookup "0" = some 0 ∧
    basic_price_dict.lookup "Under $100" = some 1 ∧
    basic_price_dict.lookup "$100 - $149" = some 1.5 ∧
    basic_price_dict.lookup "$150 - $199" = some 2 ∧
    basic_price_dict.lookup "$200 - $299" = some 3 ∧
    basic_price_dict.lookup "$300 - $399" = some 4 ∧
    basic_price_dict.lookup "$400 - $499" = some 5 ∧
    basic_price_dict.lookup "$500  - $599" = some 6 ∧
    basic_price_dict.lookup "$600 and over" = some 7 ∧
    average_price_dict.lookup "0" = some 0 ∧
    average_price_dict.lookup "Under $100" = some 49.5 ∧
    average_price_dict.lookup "$100 - $149" = some 124.5 ∧
    average_price_dict.lookup "$150 - $199" = some 174.5 ∧
    average_price_dict.lookup "$200 - $299" = some 249.5 ∧
    average_price_dict.lookup "$300 - $399" = some 349.5 ∧
    average_price_dict.lookup "$400 - $499" = some 449.5 ∧
    average_price_dict.lookup "$500  - $599" = some 549.5 ∧
    average_price_dict.lookup "$600 and over" = some 800 :=
  ⟨rfl, rfl, rfl, rfl, rfl, rfl, rfl, rfl, rfl, rfl, rfl, rfl, rfl, rfl, rfl,
   rfl, rfl, rfl⟩

/-! Listing normalization: claims C7 and C8. -/

/-- Claim C7: a missing bedroom count becomes category "1"; any value
strictly above 7 becomes "8 or more"; values 1 through 7 keep their own
digit category. -/
theorem clean_bedrooms_spec :
    clean_bedrooms none = "1" ∧
    (∀ n : ℕ, 7 < n → clean_bedrooms (some n) = "8 or more") ∧
    (∀ n : ℕ, 1 ≤ n → n ≤ 7 → clean_bedrooms (some n) = toString n) := by
  refine ⟨by decide, ?_, ?_⟩
  · intro n h
    simp [clean_bedrooms, h]
  · intro n h1 h7
    interval_cases n <;> decide

/-- Witness for C7 at the concrete inputs 12 (capped) and 3 (kept). -/
theorem clean_bedrooms_spec_witness :
    (7 < 12 ∧ clean_bedrooms (some 12) = "8 or more") ∧
    (1 ≤ 3 ∧ 3 ≤ 7 ∧ clean_bedrooms (some 3) = toString 3) :=
  ⟨⟨by decide, clean_bedrooms_spec.2.1 12 (by decide)⟩,
   ⟨by decide, by decide, clean_bedrooms_spec.2.2 3 (by decide) (by decide)⟩⟩

/-- Claim C8: the price pipeline strips "," and "$", parses the decimal
remainder and multiplies by 7; in particular "$1,234.00" yields 8638. -/
theorem weekly_price_spec :
    (∀ (s : String) (x : ℚ), parse_decimal (strip_price s) = some x →
        weekly_price s = some (x * 7)) ∧
    weekly_price "$1,234.00" = some 8638 := by
  constructor
  · intro s x h
    simp [weekly_price, h, NIGHTS_IN_WEEK]
  · have h : strip_price "$1,234.00" = "1234.00" := by decide
    rw [weekly_price, h]
    have h2 : split_on_dot "1234.00".toList
        = [['1', '2', '3', '4'], ['0', '0']] := by decide
    have h3 : parse_digits ['1', '2', '3', '4'] = some 1234 := by decide
    have h4 : parse_digits ['0', '0'] = some 0 := by decide
    simp only [parse_decimal, h2, h3, h4, List.length_cons, List.length_nil]
    norm_num [NIGHTS_IN_WEEK]

/-- Witness for C8: the generic conjunct applied at "$10.00". -/
theorem weekly_price_spec_witness :
    parse_decimal (strip_price "$10.00") = some 10 ∧
    weekly_price "$10.00" = some (10 * 7) :=
  have h : parse_decimal (strip_price "$10.00") = some 10 := by
    have h1 : strip_price "$10.00" = "10.00" := by decide
    have h2 : split_on_dot "10.00".toList = [['1', '0'], ['0', '0']] := by decide
    have h3 : parse_digits ['1', '0'] = some 10 := by decide
    have h4 : parse_digits ['0', '0'] = some 0 := by decide
    rw [h1]
    simp only [parse_decimal, h2, h3, h4, List.length_cons, List.length_nil]
    norm_num
  ⟨h, weekly_price_spec.1 "$10.00" 10 h⟩

/-! Frame behaviour of the ratio step: claim C9. -/

/-- Counterexample to claim C9 as stated: the ratio step does mutate the
aggregate table object it receives: after the call the object carries the
two new ratio columns, so its state differs from the state before the call. -/
theorem add_ratios_mutates_input :
    add_ratios_post [demo_agg_row] ≠ table_pre [demo_agg_row] := by
  intro h
  have := congrArg (fun l => l.map fun x => (x.2.1 : Option ℚ).isSome) h
  simp [add_ratios_post, table_pre, demo_agg_row] at this

/-- Claim C9 (amended): the ratio step only appends the two ratio columns to
its input object: every pre-existing row and column of the table passed in is
left unchanged. -/
theorem add_ratios_preserves_existing_columns (t : List AggRow) :
    (add_ratios_post t).map (fun x => x.1) = t := by
  induction t with
  | nil => rfl
  | cons r rest ih =>
    simp only [add_ratios_post, List.map_cons] at ih ⊢
    rw [ih]

/-! End-to-end scenario: claim C4. -/

/-- Claim C4: with areas {A, B} and categories {"1", "total"}, rentals
{A-"1": 5, B-"1": 0} and three listings in A-"1", completion followed by
aggregation yields exactly 4 rows, the listing-count table carries the
synthetic "total" keys, and the count ratio at (B, "total") is 0 because
both sides are zero there. -/
theorem end_to_end_scenario :
    scenario_final.length = 4 ∧
    scenario_airbnb_count.map rkey
      = [("A", "1"), ("A", "total"), ("B", "1"), ("B", "total")] ∧
    (scenario_final.filter fun x => x.1.SA2 == "B" && x.1.Bedrooms == "total").map
        (fun x => x.2.1) = [some (0 : ℚ)] := by
  refine ⟨?_, ?_, ?_⟩ <;> decide

/-! Weighted-median bucket selector: claims C2 and C10. -/

lemma bucket_walk_done (target : ℚ) (counts : List ℚ) (i : ℕ) (cum : ℚ)
    (h : target ≤ cum) : bucket_walk target counts i cum = some (i, cum) := by
  cases counts <;> simp [bucket_walk, h]

lemma bucket_walk_reaches (target : ℚ) :
    ∀ (counts : List ℚ) (cum : ℚ) (i : ℕ),
      (∀ x ∈ counts, 0 ≤ x) → ¬ target ≤ cum → target ≤ cum + counts.sum →
      ∃ j, j < counts.length ∧
        bucket_walk target counts i cum =
          some (i + (j + 1), cum + (counts.take (j + 1)).sum) ∧
        target ≤ cum + (counts.take (j + 1)).sum ∧
        ∀ k, k < j → cum + (counts.take (k + 1)).sum < target := by
  intro counts
  induction counts with
  | nil =>
    intro cum i _ hlt hle
    simp only [List.sum_nil, add_zero] at hle
    exact absurd hle hlt
  | cons c rest ih =>
    intro cum i hnn hlt hle
    have hnnr : ∀ x ∈ rest, 0 ≤ x := fun x hx => hnn x (List.mem_cons_of_mem c hx)
    rw [bucket_walk, if_neg hlt]
    by_cases hc : target ≤ cum + c
    · refine ⟨0, by simp, ?_, ?_, ?_⟩
      · rw [bucket_walk_done target rest (i + 1) (cum + c) hc]
        simp
      · simpa using hc
      · intro k hk
        exact absurd hk (Nat.not_lt_zero k)
    · have hle2 : target ≤ (cum + c) + rest.sum := by
        rw [List.sum_cons] at hle
        linarith
      obtain ⟨j, hj, heq, hreach, hmin⟩ := ih (cum + c) (i + 1) hnnr hc hle2
      refine ⟨j + 1, by simpa using Nat.succ_lt_succ hj, ?_, ?_, ?_⟩
      · rw [heq]
        simp only [Option.some.injEq, Prod.mk.injEq, List.take_succ_cons,
          List.sum_cons]
        exact ⟨by omega, by ring⟩
      · rw [List.take_succ_cons, List.sum_cons]
        linarith
      · intro k hk
        cases k with
        | zero =>
          have : cum + c < target := not_le.mp hc
          simpa using this
        | succ m =>
          have hm : m < j := by omega
          have := hmin m hm
          rw [List.take_succ_cons, List.sum_cons]
          linarith

/-- Claim C2: for a row of non-negative bucket counts the selector emits no
selection exactly when the total weight is zero (no error), and otherwise
selects the first bucket whose running sum reaches half the total weight
(ties to the first such bucket). -/
theorem assign_rental_price_weighted_median (counts : List ℚ)
    (hnn : ∀ x ∈ counts, 0 ≤ x) :
    (counts.sum = 0 → assign_rental_price_row counts = some none) ∧
    (counts.sum ≠ 0 → ∃ j, j < counts.length ∧
        assign_rental_price_row counts = some (some j) ∧
        counts.sum * (1 / 2) ≤ (counts.take (j + 1)).sum ∧
        ∀ k, k < j → (counts.take (k + 1)).sum < counts.sum * (1 / 2)) := by
  constructor
  · intro h0
    have hw : bucket_walk (counts.sum * (1 / 2)) counts 0 0 = some (0, 0) := by
      rw [h0, zero_mul]
      exact bucket_walk_done 0 counts 0 0 le_rfl
    rw [assign_rental_price_row, hw]
    simp
  · intro hne
    have hpos : 0 < counts.sum := lt_of_le_of_ne (List.sum_nonneg hnn) (Ne.symm hne)
    have htpos : 0 < counts.sum * (1 / 2) := by linarith
    have hlt : ¬ counts.sum * (1 / 2) ≤ 0 := not_le.mpr htpos
    have hle : counts.sum * (1 / 2) ≤ 0 + counts.sum := by linarith
    obtain ⟨j, hj, heq, hreach, hmin⟩ :=
      bucket_walk_reaches (counts.sum * (1 / 2)) counts 0 0 hnn hlt hle
    refine ⟨j, hj, ?_, by simpa using hreach, ?_⟩
    · have hcum : (0 : ℚ) + (counts.take (j + 1)).sum ≠ 0 := by
        have h2 : (0 : ℚ) < 0 + (counts.take (j + 1)).sum := by linarith
        exact h2.ne'
      simp only [assign_rental_price_row, heq]
      rw [if_neg hcum]
      simp
    · intro k hk
      have := hmin k hk
      linarith

/-- Witness for C2 at the spec vector [10, 0, 0, 0, 0, 0, 0, 0, 0]: the
selector picks the first bucket. -/
theorem assign_rental_price_weighted_median_witness :
    (∀ x ∈ ([10, 0, 0, 0, 0, 0, 0, 0, 0] : List ℚ), 0 ≤ x) ∧
    ((([10, 0, 0, 0, 0, 0, 0, 0, 0] : List ℚ).sum = 0 →
        assign_rental_price_row [10, 0, 0, 0, 0, 0, 0, 0, 0] = some none) ∧
     (([10, 0, 0, 0, 0, 0, 0, 0, 0] : List ℚ).sum ≠ 0 → ∃ j,
        j < ([10, 0, 0, 0, 0, 0, 0, 0, 0] : List ℚ).length ∧
        assign_rental_price_row [10, 0, 0, 0, 0, 0, 0, 0, 0] = some (some j) ∧
        ([10, 0, 0, 0, 0, 0, 0, 0, 0] : List ℚ).sum * (1 / 2) ≤
          (([10, 0, 0, 0, 0, 0, 0, 0, 0] : List ℚ).take (j + 1)).sum ∧
        ∀ k, k < j → (([10, 0, 0, 0, 0, 0, 0, 0, 0] : List ℚ).take (k + 1)).sum <
          ([10, 0, 0, 0, 0, 0, 0, 0, 0] : List ℚ).sum * (1 / 2))) ∧
    assign_rental_price_row [10, 0, 0, 0, 0, 0, 0, 0, 0] = some (some 0) := by
  have hnn : ∀ x ∈ ([10, 0, 0, 0, 0, 0, 0, 0, 0] : List ℚ), 0 ≤ x := by
    norm_num
  refine ⟨hnn, assign_rental_price_weighted_median _ hnn, ?_⟩
  norm_num [assign_rental_price_row, bucket_walk]

/-- Claim C10: on an 8-bucket row of non-negative counts the walk never runs
off the end: with positive total weight it stops at an index between 1 and 8
(so the bucket accesses and the selected column index stay in bounds), and
with zero total weight it performs no bucket access at all. -/
theorem bucket_walk_safe (counts : List ℚ) (h8 : counts.length = 8)
    (hnn : ∀ x ∈ counts, 0 ≤ x) :
    (0 < counts.sum →
      ∃ i cum, bucket_walk (counts.sum * (1 / 2)) counts 0 0 = some (i, cum) ∧
        1 ≤ i ∧ i ≤ 8) ∧
    (counts.sum = 0 →
      bucket_walk (counts.sum * (1 / 2)) counts 0 0 = some (0, 0)) := by
  constructor
  · intro hpos
    have htpos : 0 < counts.sum * (1 / 2) := by linarith
    have hlt : ¬ counts.sum * (1 / 2) ≤ 0 := not_le.mpr htpos
    have hle : counts.sum * (1 / 2) ≤ 0 + counts.sum := by linarith
    obtain ⟨j, hj, heq, -, -⟩ :=
      bucket_walk_reaches (counts.sum * (1 / 2)) counts 0 0 hnn hlt hle
    rw [h8] at hj
    exact ⟨0 + (j + 1), 0 + (counts.take (j + 1)).sum, heq, by omega, by omega⟩
  · intro h0
    rw [h0, zero_mul]
    exact bucket_walk_done 0 counts 0 0 le_rfl

/-- Witness for C10 at the 8-bucket row [1, 0, 0, 0, 0, 0, 0, 0]. -/
theorem bucket_walk_safe_witness :
    ([1, 0, 0, 0, 0, 0, 0, 0] : List ℚ).length = 8 ∧
    (∀ x ∈ ([1, 0, 0, 0, 0, 0, 0, 0] : List ℚ), 0 ≤ x) ∧
    ((0 < ([1, 0, 0, 0, 0, 0, 0, 0] : List ℚ).sum →
        ∃ i cum, bucket_walk (([1, 0, 0, 0, 0, 0, 0, 0] : List ℚ).sum * (1 / 2))
            [1, 0, 0, 0, 0, 0, 0, 0] 0 0 = some (i, cum) ∧ 1 ≤ i ∧ i ≤ 8) ∧
     (([1, 0, 0, 0, 0, 0, 0, 0] : List ℚ).sum = 0 →
        bucket_walk (([1, 0, 0, 0, 0, 0, 0, 0] : List ℚ).sum * (1 / 2))
          [1, 0, 0, 0, 0, 0, 0, 0] 0 0 = some (0, 0))) := by
  have h8 : ([1, 0, 0, 0, 0, 0, 0, 0] : List ℚ).length = 8 := by norm_num
  have hnn : ∀ x ∈ ([1, 0, 0, 0, 0, 0, 0, 0] : List ℚ), 0 ≤ x := by norm_num
  exact ⟨h8, hnn, bucket_walk_safe _ h8 hnn⟩

/-! Completion engine: claim C3. -/

lemma filter_key_of_nodup {α : Type} (left : List (Row α))
    (hu : (left.map rkey).Nodup) (k : String × String) :
    left.filter (fun r => decide (rkey r = k)) = [] ∨
    ∃ r, rkey r = k ∧ left.filter (fun r => decide (rkey r = k)) = [r] := by
  induction left with
  | nil => exact Or.inl rfl
  | cons a l ih =>
    rw [List.map_cons, List.nodup_cons] at hu
    obtain ⟨hna, hnl⟩ := hu
    by_cases hak : rkey a = k
    · refine Or.inr ⟨a, hak, ?_⟩
      rw [List.filter_cons_of_pos (by simpa using hak)]
      have hrest : l.filter (fun r => decide (rkey r = k)) = [] := by
        rw [List.filter_eq_nil_iff]
        intro b hb
        simp only [decide_eq_true_eq]
        intro hbk
        exact hna (by rw [hak, ← hbk]; exact List.mem_map_of_mem rkey hb)
      rw [hrest]
    · rcases ih hnl with h | ⟨r, hr, hfil⟩
      · exact Or.inl (by rw [List.filter_cons_of_neg (by simpa using hak), h])
      · exact Or.inr ⟨r, hr, by rw [List.filter_cons_of_neg (by simpa using hak), hfil]⟩

lemma right_merge_map_rkey {α : Type} (left : List (Row α)) (d : α)
    (hu : (left.map rkey).Nodup) :
    ∀ combos : List (String × String),
      (right_merge_fill left combos d).map rkey = combos := by
  intro combos
  induction combos with
  | nil => rfl
  | cons k ks ih =>
    simp only [right_merge_fill]
    rw [List.map_append, ih]
    rcases filter_key_of_nodup left hu k with h | ⟨r, hr, hfil⟩
    · rw [h]
      simp [rkey]
    · rw [hfil]
      simp [hr]

lemma right_merge_mem_default {α : Type} (left : List (Row α)) (d : α)
    (k : String × String) :
    ∀ combos : List (String × String), k ∈ combos →
      (∀ r ∈ left, rkey r ≠ k) →
      (k.1, k.2, d) ∈ right_merge_fill left combos d := by
  intro combos hk hno
  induction combos with
  | nil => cases hk
  | cons c cs ih =>
    simp only [right_merge_fill, List.mem_append]
    rcases List.mem_cons.mp hk with rfl | hks
    · left
      have hfil : left.filter (fun r => decide (rkey r = k)) = [] := by
        rw [List.filter_eq_nil_iff]
        intro b hb
        simpa using hno b hb
      rw [hfil]
      simp
    · exact Or.inr (ih hks)

lemma all_combinations_length (areas bedrooms : List String) :
    (all_combinations areas bedrooms).length = areas.length * bedrooms.length := by
  induction areas with
  | nil => simp [all_combinations]
  | cons a rest ih =>
    simp only [all_combinations, List.length_append, List.length_map,
      List.length_cons, ih]
    ring

lemma mem_all_combinations_fst {k : String × String} :
    ∀ {areas bedrooms : List String},
      k ∈ all_combinations areas bedrooms → k.1 ∈ areas := by
  intro areas
  induction areas with
  | nil =>
    intro bedrooms h
    cases h
  | cons a rest ih =>
    intro bedrooms h
    simp only [all_combinations, List.mem_append] at h
    rcases h with h1 | h2
    · obtain ⟨b, -, hb⟩ := List.mem_map.mp h1
      rw [← hb]
      exact List.mem_cons_self a rest
    · exact List.mem_cons_of_mem a (ih h2)

lemma all_combinations_pairwise (areas bedrooms : List String)
    (ha : areas.Pairwise str_lt) (hb : bedrooms.Pairwise str_lt) :
    (all_combinations areas bedrooms).Pairwise pair_lt := by
  induction areas with
  | nil => exact List.Pairwise.nil
  | cons a rest ih =>
    rw [List.pairwise_cons] at ha
    obtain ⟨hhead, htail⟩ := ha
    simp only [all_combinations]
    rw [List.pairwise_append]
    refine ⟨?_, ih htail, ?_⟩
    · rw [List.pairwise_map]
      exact hb.imp fun h => Or.inr ⟨rfl, h⟩
    · intro x hx y hy
      obtain ⟨b, -, hxb⟩ := List.mem_map.mp hx
      have hy1 := mem_all_combinations_fst hy
      left
      rw [← hxb]
      exact hhead y.1 hy1

/-- Counterexample to claim C3 as stated: the filled rental-price table is not
completed over the canonical bedroom enumeration but over the categories
observed in the partial input; with one area and a partial input naming only
category "1" it has 1 row, not 1 × 9. -/
theorem fill_rental_price_misses_canonical_rows :
    (fill_rental_price ["A"] [("A", "1", "Under $100")]).length ≠
      (["A"] : List String).length * BEDROOMS_ORDER.length := by
  decide

/-- Claim C3 (amended): the completion step, applied to any unique-keyed
partial table over pairwise-sorted areas and bedroom categories, produces
exactly one row per pair of the cross-product — row count |areas| × |bedrooms|
with no duplicate keys — in deterministic order (areas then bedroom label,
which on the canonical `BEDROOMS_ORDER` labels coincides with the canonical
enumeration, itself strictly sorted), and every pair absent from the partial
input is filled with the neutral default.  The listing tables are completed
with `bedrooms = BEDROOMS_ORDER`; the rental-price table with the categories
observed in its input, which equal the canonical enumeration only when every
category occurs. -/
theorem complete_table_spec {α : Type} (left : List (Row α))
    (areas bedrooms : List String) (d : α)
    (ha : areas.Pairwise str_lt) (hb : bedrooms.Pairwise str_lt)
    (hu : (left.map rkey).Nodup) :
    (complete_table left areas bedrooms d).length = areas.length * bedrooms.length ∧
    (complete_table left areas bedrooms d).map rkey = all_combinations areas bedrooms ∧
    ((complete_table left areas bedrooms d).map rkey).Nodup ∧
    (∀ k ∈ all_combinations areas bedrooms,
        (∀ r ∈ left, rkey r ≠ k) →
        (k.1, k.2, d) ∈ complete_table left areas bedrooms d) ∧
    BEDROOMS_ORDER.Pairwise str_lt := by
  have hmap : (right_merge_fill left (all_combinations areas bedrooms) d).map rkey
      = all_combinations areas bedrooms := right_merge_map_rkey left d hu _
  have hperm : List.Perm (complete_table left areas bedrooms d)
      (right_merge_fill left (all_combinations areas bedrooms) d) :=
    List.perm_insertionSort key_le _
  have hpermkeys : List.Perm ((complete_table left areas bedrooms d).map rkey)
      (all_combinations areas bedrooms) := by
    have h2 := hperm.map rkey
    rwa [hmap] at h2
  have hsortrows : (complete_table left areas bedrooms d).Pairwise key_le :=
    List.sorted_insertionSort key_le _
  have hsorted : ((complete_table left areas bedrooms d).map rkey).Pairwise pair_le :=
    List.pairwise_map.mpr hsortrows
  have hcombos := all_combinations_pairwise areas bedrooms ha hb
  have hkeys : (complete_table left areas bedrooms d).map rkey
      = all_combinations areas bedrooms :=
    List.eq_of_perm_of_sorted hpermkeys hsorted (hcombos.imp pair_le_of_pair_lt)
  refine ⟨?_, hkeys, ?_, ?_, by decide⟩
  · have h3 := congrArg List.length hkeys
    rwa [List.length_map, all_combinations_length] at h3
  · rw [hkeys]
    exact hcombos.imp fun h => pair_lt_ne h
  · intro k hk hno
    have hm : (k.1, k.2, d) ∈ right_merge_fill left (all_combinations areas bedrooms) d :=
      right_merge_mem_default left d k _ hk hno
    exact hperm.mem_iff.mpr hm

/-- Witness for C3 at a concrete instance: areas {A, B}, the canonical
bedroom enumeration, and a one-row partial table. -/
theorem complete_table_spec_witness :
    (["A", "B"] : List String).Pairwise str_lt ∧
    BEDROOMS_ORDER.Pairwise str_lt ∧
    (([("A", "1", (3 : ℚ))] : List (Row ℚ)).map rkey).Nodup ∧
    ((complete_table [("A", "1", (3 : ℚ))] ["A", "B"] BEDROOMS_ORDER 0).length =
        (["A", "B"] : List String).length * BEDROOMS_ORDER.length ∧
      (complete_table [("A", "1", (3 : ℚ))] ["A", "B"] BEDROOMS_ORDER 0).map rkey =
        all_combinations ["A", "B"] BEDROOMS_ORDER ∧
      ((complete_table [("A", "1", (3 : ℚ))] ["A", "B"] BEDROOMS_ORDER 0).map rkey).Nodup ∧
      (∀ k ∈ all_combinations ["A", "B"] BEDROOMS_ORDER,
          (∀ r ∈ ([("A", "1", (3 : ℚ))] : List (Row ℚ)), rkey r ≠ k) →
          (k.1, k.2, (0 : ℚ)) ∈ complete_table [("A", "1", (3 : ℚ))] ["A", "B"] BEDROOMS_ORDER 0) ∧
      BEDROOMS_ORDER.Pairwise str_lt) := by
  have ha : (["A", "B"] : List String).Pairwise str_lt := by decide
  have hb : BEDROOMS_ORDER.Pairwise str_lt := by decide
  have hu : (([("A", "1", (3 : ℚ))] : List (Row ℚ)).map rkey).Nodup := by decide
  exact ⟨ha, hb, hu, complete_table_spec [("A", "1", (3 : ℚ))] ["A", "B"] BEDROOMS_ORDER 0 ha hb hu⟩
